import Mathlib

/- Shallow embedding of the amplihack-logparse core: src/types.rs,
src/error.rs, src/parser/mod.rs and src/analyzer/mod.rs.

Modelling conventions, fixed for the whole development:
- chrono DateTime<Utc> timestamps are modelled as Int milliseconds since an
  epoch; Duration subtraction followed by num_milliseconds is Int
  subtraction (all timestamps of interest lie on whole-millisecond
  boundaries, so the truncation in num_milliseconds is the identity).
- f64 arithmetic is modelled by exact rational arithmetic; every division
  performed by the code is guarded so no division by zero occurs, and all
  concrete values appearing below are exactly representable in f64.
- Rust String and str are Lean String; the parser works on the underlying
  List Char, with byte indices of ASCII delimiters corresponding to list
  positions. Rust to_uppercase and trim agree with Char.toUpper and
  Char.isWhitespace on the ASCII input the parser inspects.
- u32 and u64 counters are Nat; no behaviour relevant here wraps around.
- chrono timestamp parsing is an external-library call: parse_timestamp is
  parametrised by an abstract parser pt : List Char -> Option Int standing
  for the layered three-format fallback chain in parser/mod.rs.
- std HashMap is modelled as an insertion-ordered association list holding
  the same key-value pairs; where an output depends on the unspecified
  HashMap iteration order, the set of possible outputs is modelled as all
  permutations of the canonical insertion-ordered list.
- File input is modelled as the list of lines of a readable file; the
  I/O-level failure paths of parse_log_file (FileNotFound, read errors)
  concern the environment and are outside the pure model.
-/

/-! ## Definitions: the embedded data model, parser and analyzers, the
specification-side formulations, and the concrete sample data -/

/-- Types of log entries (types.rs, enum EntryType). -/
inductive EntryType where
  | AgentInvocation
  | Info
  | Warning
  | Error
  | Decision
  | Unknown
deriving DecidableEq, Repr

/-- One parsed log record (types.rs, struct LogEntry). -/
structure LogEntry where
  timestamp : Int
  entry_type : EntryType
  message : String
  agent_name : Option String
  duration_ms : Option Nat
deriving DecidableEq, Repr

/-- A complete log session (types.rs, struct LogSession). -/
structure LogSession where
  id : String
  entries : List LogEntry
  start_time : Int
  end_time : Option Int
deriving DecidableEq, Repr

/-- Statistics about agent usage (types.rs, struct AgentStats). -/
structure AgentStats where
  name : String
  invocation_count : Nat
  total_duration_ms : Nat
  avg_duration_ms : ℚ
deriving DecidableEq, Repr

/-- AgentStats::new. -/
def AgentStats.new (name : String) : AgentStats :=
  { name := name, invocation_count := 0, total_duration_ms := 0, avg_duration_ms := 0 }

/-- AgentStats::add_duration: increments the count, adds to the total and
recomputes the average as total divided by count. -/
def AgentStats.add_duration (s : AgentStats) (duration_ms : Nat) : AgentStats :=
  { s with
    invocation_count := s.invocation_count + 1,
    total_duration_ms := s.total_duration_ms + duration_ms,
    avg_duration_ms :=
      ((s.total_duration_ms + duration_ms : Nat) : ℚ) / ((s.invocation_count + 1 : Nat) : ℚ) }

/-- Timing statistics for a session (types.rs, struct TimingStats). -/
structure TimingStats where
  total_duration_secs : ℚ
  entry_count : Nat
  avg_time_between_entries : ℚ
deriving DecidableEq, Repr

/-- Parse errors (error.rs, enum ParseError). The Io and Json variants carry
their message text only. -/
inductive ParseError where
  | FileNotFound (path : String)
  | InvalidTimestamp (s : String)
  | MalformedEntry (line : Nat) (details : String)
  | Io (msg : String)
  | Json (msg : String)
  | Unknown (msg : String)
deriving DecidableEq, Repr

deriving instance DecidableEq for Except

/-- Rust str::trim on the character list: strip whitespace from both ends. -/
def trimList (l : List Char) : List Char :=
  ((l.dropWhile Char.isWhitespace).reverse.dropWhile Char.isWhitespace).reverse

/-- parse_entry_type: match the uppercased level text against the fixed
keyword table. -/
def parse_entry_type (s : List Char) : EntryType :=
  let u := s.map Char.toUpper
  if u = "INFO".data then EntryType.Info
  else if u = "WARN".data ∨ u = "WARNING".data then EntryType.Warning
  else if u = "ERROR".data then EntryType.Error
  else if u = "AGENT".data then EntryType.AgentInvocation
  else if u = "DECISION".data then EntryType.Decision
  else EntryType.Unknown

/-- An abstract timestamp parser standing for the chrono fallback chain. -/
def TsParser : Type := List Char → Option Int

/-- parse_timestamp: try the layered chrono formats (abstracted as pt); if
all fail, return InvalidTimestamp carrying the original text. -/
def parse_timestamp (pt : TsParser) (s : List Char) : Except ParseError Int :=
  match pt s with
  | some t => Except.ok t
  | none => Except.error (ParseError.InvalidTimestamp (String.mk s))

/-- parse_log_entry: parse one line of the shape
open-bracket timestamp close-bracket LEVEL colon MESSAGE.
The Rust code locates the first close bracket in the whole line; since the
first character is the open bracket, this equals locating it in the tail,
and the slice between index 1 and that position is the take-while below.
The details strings of the two MalformedEntry errors paraphrase the Rust
text without punctuation that the embedding avoids. -/
def parse_log_entry (pt : TsParser) (line : List Char) : Except ParseError LogEntry :=
  if line.head? = some '[' then
    if ']' ∈ line.tail then
      let timestamp_str := line.tail.takeWhile (fun c => c ≠ ']')
      match parse_timestamp pt timestamp_str with
      | Except.error e => Except.error e
      | Except.ok timestamp =>
        let rest := trimList ((line.tail.dropWhile (fun c => c ≠ ']')).drop 1)
        if ':' ∈ rest then
          let level_str := trimList (rest.takeWhile (fun c => c ≠ ':'))
          let msg := trimList ((rest.dropWhile (fun c => c ≠ ':')).drop 1)
          Except.ok
            { timestamp := timestamp, entry_type := parse_entry_type level_str,
              message := String.mk msg, agent_name := none, duration_ms := none }
        else
          Except.ok
            { timestamp := timestamp, entry_type := EntryType.Unknown,
              message := String.mk rest, agent_name := none, duration_ms := none }
    else
      Except.error (ParseError.MalformedEntry 0 "No closing bracket for timestamp")
  else
    Except.error (ParseError.MalformedEntry 0 "Line does not start with bracket")

/-- parse_log_file over the lines of a readable file: skip blank lines,
keep every line the line parser accepts (a failing line is dropped with a
diagnostic warning on the side channel, which the pure model omits). -/
def parse_log_file (pt : TsParser) (lines : List (List Char)) :
    Except ParseError (List LogEntry) :=
  Except.ok (lines.filterMap (fun line =>
    if trimList line = [] then none
    else (parse_log_entry pt line).toOption))

/-- Minimum of a list of Int, as iter().min(). -/
def listMin : List Int → Option Int
  | [] => none
  | a :: rest =>
    some (match listMin rest with
          | none => a
          | some m => min a m)

/-- Maximum of a list of Int, as iter().max(). -/
def listMax : List Int → Option Int
  | [] => none
  | a :: rest =>
    some (match listMax rest with
          | none => a
          | some m => max a m)

/-- Sum over windows of size 2 of the timestamp deltas, in milliseconds
(the fold inside avg_time_between_entries). -/
def deltaSum : List LogEntry → Int
  | a :: b :: rest => (b.timestamp - a.timestamp) + deltaSum (b :: rest)
  | _ => 0

namespace TimingAnalyzer

/-- TimingAnalyzer::calculate_duration: max minus min over all timestamps,
in fractional seconds; none when the session is empty. -/
def calculate_duration (entries : List LogEntry) : Option ℚ :=
  match listMin (entries.map (fun e => e.timestamp)),
        listMax (entries.map (fun e => e.timestamp)) with
  | some first, some last => some (((last - first : Int) : ℚ) / 1000)
  | _, _ => none

/-- TimingAnalyzer::avg_time_between_entries: 0 for fewer than 2 entries,
otherwise the sum of consecutive sequence-order deltas over count minus 1. -/
def avg_time_between_entries (entries : List LogEntry) : ℚ :=
  if entries.length < 2 then 0
  else ((deltaSum entries : ℚ) / 1000) / ((entries.length - 1 : Nat) : ℚ)

/-- TimingAnalyzer::analyze: always succeeds with the derived TimingStats. -/
def analyze (session : LogSession) : Except ParseError TimingStats :=
  Except.ok
    { total_duration_secs := (calculate_duration session.entries).getD 0,
      entry_count := session.entries.length,
      avg_time_between_entries := avg_time_between_entries session.entries }

end TimingAnalyzer

/-- The entry(name).or_insert_with(AgentStats::new) access followed by a
mutation f of the accumulator, on the association-list model. -/
def mapUpdate (f : AgentStats → AgentStats) (name : String) :
    List (String × AgentStats) → List (String × AgentStats)
  | [] => [(name, f (AgentStats.new name))]
  | (k, v) :: rest =>
    if k = name then (k, f v) :: rest
    else (k, v) :: mapUpdate f name rest

namespace AgentAnalyzer

/-- The per-entry mutation of AgentAnalyzer::process_entries: fold a
duration via add_duration, or only bump the invocation count. -/
def entryUpdate (e : LogEntry) (st : AgentStats) : AgentStats :=
  match e.duration_ms with
  | some d => st.add_duration d
  | none => { st with invocation_count := st.invocation_count + 1 }

/-- AgentAnalyzer::process_entries: scan entries in order, updating the
accumulator of every entry that carries an agent name. -/
def process_entries (agent_map : List (String × AgentStats)) :
    List LogEntry → List (String × AgentStats)
  | [] => agent_map
  | e :: rest =>
    match e.agent_name with
    | some a => process_entries (mapUpdate (entryUpdate e) a agent_map) rest
    | none => process_entries agent_map rest

/-- AgentAnalyzer::get_all_stats on the canonical insertion-ordered map:
clone out the values. -/
def get_all_stats (agent_map : List (String × AgentStats)) : List AgentStats :=
  agent_map.map (fun p => p.2)

/-- AgentAnalyzer::analyze: run a fresh accumulator over the session and
collect the values, in the canonical insertion order. -/
def analyze (session : LogSession) : Except ParseError (List AgentStats) :=
  Except.ok (get_all_stats (process_entries [] session.entries))

/-- The set of outputs Analyzer::analyze can actually return for a session:
any permutation of the canonical value list, since HashMap::values iterates
in an unspecified per-instance order. -/
def analyzeOutput (session : LogSession) (out : List AgentStats) : Prop :=
  out.Perm (get_all_stats (process_entries [] session.entries))

end AgentAnalyzer

/-- Pattern types detected in logs (enum LogPattern). -/
inductive LogPattern where
  | ErrorBurst (count : Nat) (duration_secs : ℚ)
  | LongGap (duration_secs : ℚ)
  | AgentActivity (agent : String) (count : Nat)
  | NoAgentActivity
deriving DecidableEq, Repr

/-- Pattern detection results (struct PatternAnalysis). -/
structure PatternAnalysis where
  patterns : List LogPattern
deriving DecidableEq, Repr

/-- Analyzer thresholds (struct PatternAnalyzer). -/
structure PatternAnalyzer where
  error_burst_threshold : ℚ
  long_gap_threshold : ℚ
  agent_activity_threshold : Nat
deriving DecidableEq, Repr

/-- PatternAnalyzer::new with the default thresholds. -/
def PatternAnalyzer.new : PatternAnalyzer :=
  { error_burst_threshold := 5, long_gap_threshold := 300,
    agent_activity_threshold := 10 }

/-- PatternAnalyzer::with_thresholds. -/
def PatternAnalyzer.with_thresholds (e g : ℚ) (a : Nat) : PatternAnalyzer :=
  { error_burst_threshold := e, long_gap_threshold := g,
    agent_activity_threshold := a }

/-- Sliding windows of size 3, as slice::windows(3): one triple per window
start, empty when the list has fewer than 3 elements. -/
def windows3 : List α → List (α × α × α)
  | a :: b :: c :: rest => (a, b, c) :: windows3 (b :: c :: rest)
  | _ => []

/-- Adjacent pairs, as slice::windows(2). -/
def windows2 : List α → List (α × α)
  | a :: b :: rest => (a, b) :: windows2 (b :: rest)
  | _ => []

namespace PatternAnalyzer

/-- PatternAnalyzer::detect_error_bursts, translated with its early guards:
enumerate and filter the error-kind entries, then scan windows of 3 and
emit an ErrorBurst for every window whose elapsed time is positive and
whose rate 3 over elapsed reaches the threshold. -/
def detect_error_bursts (a : PatternAnalyzer) (entries : List LogEntry) :
    List LogPattern :=
  if entries.length < 2 then []
  else
    let error_entries := entries.enum.filter
      (fun p => p.2.entry_type = EntryType.Error)
    if error_entries.length < 2 then []
    else
      (windows3 error_entries).filterMap (fun w =>
        let duration_secs := ((w.2.2.2.timestamp - w.1.2.timestamp : Int) : ℚ) / 1000
        if 0 < duration_secs ∧ a.error_burst_threshold ≤ 3 / duration_secs then
          some (LogPattern.ErrorBurst 3 duration_secs)
        else none)

/-- PatternAnalyzer::detect_long_gaps: one LongGap per adjacent pair whose
delta exceeds the threshold. -/
def detect_long_gaps (a : PatternAnalyzer) (entries : List LogEntry) :
    List LogPattern :=
  (windows2 entries).filterMap (fun w =>
    let gap := ((w.2.timestamp - w.1.timestamp : Int) : ℚ) / 1000
    if a.long_gap_threshold < gap then some (LogPattern.LongGap gap)
    else none)

/-- The or_insert(0) += 1 counting loop of detect_agent_activity, on the
insertion-ordered association-list model of the HashMap. -/
def bumpCount (name : String) : List (String × Nat) → List (String × Nat)
  | [] => [(name, 1)]
  | (k, v) :: rest =>
    if k = name then (k, v + 1) :: rest
    else (k, v) :: bumpCount name rest

/-- The per-agent invocation counts of detect_agent_activity, in key
insertion order. -/
def agent_counts : List LogEntry → List (String × Nat) → List (String × Nat)
  | [], acc => acc
  | e :: rest, acc =>
    match e.agent_name with
    | some a => agent_counts rest (bumpCount a acc)
    | none => agent_counts rest acc

/-- PatternAnalyzer::detect_agent_activity on the canonical insertion
order: keep agents whose count reaches the threshold. -/
def detect_agent_activity (a : PatternAnalyzer) (entries : List LogEntry) :
    List LogPattern :=
  ((agent_counts entries []).filter
      (fun p => a.agent_activity_threshold ≤ p.2)).map
    (fun p => LogPattern.AgentActivity p.1 p.2)

/-- PatternAnalyzer::detect_no_agent_activity: a marker when the session is
nonempty and no entry carries an agent name. -/
def detect_no_agent_activity (entries : List LogEntry) : Option LogPattern :=
  let has_agents := entries.any (fun e => e.agent_name.isSome)
  if ¬has_agents ∧ entries ≠ [] then some LogPattern.NoAgentActivity
  else none

/-- PatternAnalyzer::analyze with the canonical agent-activity order:
bursts, then gaps, then agent activity, then the optional no-agent marker. -/
def analyze (a : PatternAnalyzer) (session : LogSession) :
    Except ParseError PatternAnalysis :=
  Except.ok
    { patterns :=
        detect_error_bursts a session.entries ++
        detect_long_gaps a session.entries ++
        detect_agent_activity a session.entries ++
        (detect_no_agent_activity session.entries).toList }

/-- The set of analysis results Analyzer::analyze can actually return: the
agent-activity segment inherits the unspecified HashMap iteration order, so
any permutation of its canonical form may appear in its place. -/
def analyzeOutput (a : PatternAnalyzer) (session : LogSession)
    (out : PatternAnalysis) : Prop :=
  ∃ acts : List LogPattern,
    acts.Perm (detect_agent_activity a session.entries) ∧
    out.patterns =
      detect_error_bursts a session.entries ++
      detect_long_gaps a session.entries ++
      acts ++
      (detect_no_agent_activity session.entries).toList

end PatternAnalyzer

/-- A sample entry with a given timestamp, kind, agent name and duration. -/
def sampleEntry (t : Int) (ty : EntryType) (an : Option String) (d : Option Nat) : LogEntry :=
  { timestamp := t, entry_type := ty, message := "", agent_name := an, duration_ms := d }

/-- A sample session wrapping a list of entries. -/
def sampleSession (l : List LogEntry) : LogSession :=
  { id := "s", entries := l, start_time := 0, end_time := none }

/-- A concrete timestamp parser accepting exactly the text 2025, as an
instance of the abstract chrono fallback chain. -/
def sampleTsParser : TsParser :=
  fun l => if l = "2025".data then some 5 else none

/-- The total-duration formula as the specification words it: max timestamp
minus min timestamp across all entries, in fractional seconds, and 0 for an
empty session. -/
def timingSpecDuration : List LogEntry → ℚ
  | [] => 0
  | e :: rest =>
    ((rest.foldl (fun acc x => max acc x.timestamp) e.timestamp -
      rest.foldl (fun acc x => min acc x.timestamp) e.timestamp : Int) : ℚ) / 1000

/-- The inter-entry average as the specification words it: 0 for fewer than
2 entries, otherwise the sum of consecutive sequence-order timestamp deltas
divided by count minus 1, in seconds. -/
def timingSpecAvg (entries : List LogEntry) : ℚ :=
  if entries.length < 2 then 0
  else
    (((List.zipWith (fun b a => b.timestamp - a.timestamp) entries.tail entries).sum : Int) : ℚ)
      / 1000 / ((entries.length - 1 : Nat) : ℚ)

/-- The session of the C2 example: entries at 0, 10, 20 and 30 seconds. -/
def c2Session : LogSession :=
  sampleSession
    [sampleEntry 0 EntryType.Info none none,
     sampleEntry 10000 EntryType.Info none none,
     sampleEntry 20000 EntryType.Info none none,
     sampleEntry 30000 EntryType.Info none none]

/-- The error-burst detector as the specification words it: filter to the
error-kind entries preserving order, slide a window of size 3 over them,
and emit one ErrorBurst per window whose elapsed time is positive and whose
rate 3 over elapsed reaches the threshold. -/
def errorBurstsSpec (threshold : ℚ) (entries : List LogEntry) : List LogPattern :=
  (windows3 (entries.filter (fun e => e.entry_type = EntryType.Error))).filterMap
    (fun w =>
      let elapsed := ((w.2.2.timestamp - w.1.timestamp : Int) : ℚ) / 1000
      if 0 < elapsed ∧ threshold ≤ 3 / elapsed then
        some (LogPattern.ErrorBurst 3 elapsed)
      else none)

/-- The entries of the C1 example: three errors at 0, 100 and 200
milliseconds. -/
def c1Entries : List LogEntry :=
  [sampleEntry 0 EntryType.Error none none,
   sampleEntry 100 EntryType.Error none none,
   sampleEntry 200 EntryType.Error none none]

/-- The entry list parse_log_file returns: one entry per line that is
neither blank nor rejected by the line parser, in file order. -/
def goodEntries (pt : TsParser) (lines : List (List Char)) : List LogEntry :=
  lines.filterMap (fun line =>
    if trimList line = [] then none
    else (parse_log_entry pt line).toOption)

/-- The number of blank or whitespace-only lines. -/
def countBlank (lines : List (List Char)) : Nat :=
  lines.countP (fun l => trimList l = [])

/-- The number of malformed lines: non-blank lines the line parser rejects. -/
def countMalformed (pt : TsParser) (lines : List (List Char)) : Nat :=
  lines.countP (fun l => ¬(trimList l = []) ∧ (parse_log_entry pt l).toOption = none)

/-- The session of the C9 witness: two entries in reverse time order. -/
def c9Session : LogSession :=
  sampleSession
    [sampleEntry 2000 EntryType.Info none none,
     sampleEntry 0 EntryType.Info none none]

/-- Recognizer for the NoAgentActivity variant. -/
def isNoAgentActivity : LogPattern → Bool
  | LogPattern.NoAgentActivity => true
  | _ => false

/-- Recognizer for the AgentActivity variant. -/
def isAgentActivity : LogPattern → Bool
  | LogPattern.AgentActivity _ _ => true
  | _ => false

/-- The canonical pattern analysis, with the agent-activity segment in key
insertion order. -/
def patternsCanon (a : PatternAnalyzer) (s : LogSession) : PatternAnalysis :=
  { patterns :=
      PatternAnalyzer.detect_error_bursts a s.entries ++
      PatternAnalyzer.detect_long_gaps a s.entries ++
      PatternAnalyzer.detect_agent_activity a s.entries ++
      (PatternAnalyzer.detect_no_agent_activity s.entries).toList }

/-- The session of the C7 witness with one agent-free entry. -/
def c7aSession : LogSession :=
  sampleSession [sampleEntry 0 EntryType.Info none none]

/-- The session of the C7 witness with one agent-carrying entry. -/
def c7bSession : LogSession :=
  sampleSession [sampleEntry 0 EntryType.Info (some "x") none]

/-- The lines of the C10 witness file. -/
def c10Lines : List (List Char) := ["[2025] INFO: a".data]

/-- The session built from the parsed C10 witness file. -/
def c10Session : LogSession := sampleSession (goodEntries sampleTsParser c10Lines)

/-- The entries of the C4 counterexample: agent x logs one 100 millisecond
invocation, then one invocation with no duration. -/
def c4Entries : List LogEntry :=
  [sampleEntry 0 EntryType.AgentInvocation (some "x") (some 100),
   sampleEntry 1 EntryType.AgentInvocation (some "x") none]

/-- The session of the C4 counterexample. -/
def c4Session : LogSession := sampleSession c4Entries

/-- The statistics the code produces for the C4 counterexample session. -/
def c4Stats : AgentStats :=
  { name := "x", invocation_count := 2, total_duration_ms := 100,
    avg_duration_ms := 100 }

/-- The session of the C4 witness: one agent invocation with a duration. -/
def c4wSession : LogSession :=
  sampleSession [sampleEntry 0 EntryType.AgentInvocation (some "x") (some 100)]

/-- The statistics the aggregation produces for the C4 witness session. -/
def c4wStats : AgentStats := (AgentStats.new "x").add_duration 100

/-- The entries of the C8 counterexample: two distinct agents. -/
def c8Session : LogSession :=
  sampleSession
    [sampleEntry 0 EntryType.AgentInvocation (some "a") none,
     sampleEntry 1 EntryType.AgentInvocation (some "b") none]

/-- The accumulator for agent a in the C8 counterexample. -/
def c8StatsA : AgentStats :=
  { name := "a", invocation_count := 1, total_duration_ms := 0, avg_duration_ms := 0 }

/-- The accumulator for agent b in the C8 counterexample. -/
def c8StatsB : AgentStats :=
  { name := "b", invocation_count := 1, total_duration_ms := 0, avg_duration_ms := 0 }

/-! ## Theorems -/

theorem foldl_min_comm (a b : Int) (l : List Int) :
    l.foldl min (min a b) = min a (l.foldl min b) := by
  induction l generalizing b with
  | nil => simp
  | cons c r ih =>
    simp only [List.foldl_cons]
    rw [min_assoc]
    exact ih (min b c)

theorem foldl_max_comm (a b : Int) (l : List Int) :
    l.foldl max (max a b) = max a (l.foldl max b) := by
  induction l generalizing b with
  | nil => simp
  | cons c r ih =>
    simp only [List.foldl_cons]
    rw [max_assoc]
    exact ih (max b c)

theorem listMin_eq_foldl : ∀ (a : Int) (l : List Int), listMin (a :: l) = some (l.foldl min a)
  | _, [] => rfl
  | a, b :: r => by
    have ih := listMin_eq_foldl b r
    calc listMin (a :: b :: r)
        = some (match listMin (b :: r) with | none => a | some m => min a m) := rfl
      _ = some (match some (List.foldl min b r) with | none => a | some m => min a m) := by
            rw [ih]
      _ = some (min a (List.foldl min b r)) := rfl
      _ = some (List.foldl min a (b :: r)) := by
            rw [List.foldl_cons, foldl_min_comm]

theorem listMax_eq_foldl : ∀ (a : Int) (l : List Int), listMax (a :: l) = some (l.foldl max a)
  | _, [] => rfl
  | a, b :: r => by
    have ih := listMax_eq_foldl b r
    calc listMax (a :: b :: r)
        = some (match listMax (b :: r) with | none => a | some m => max a m) := rfl
      _ = some (match some (List.foldl max b r) with | none => a | some m => max a m) := by
            rw [ih]
      _ = some (max a (List.foldl max b r)) := rfl
      _ = some (List.foldl max a (b :: r)) := by
            rw [List.foldl_cons, foldl_max_comm]

theorem listMin_le_listMax : ∀ (l : List Int) (mn mx : Int),
    listMin l = some mn → listMax l = some mx → mn ≤ mx
  | [], _, _ => by intro h _; cases h
  | [a], mn, mx => by
    intro h1 h2
    simp [listMin, listMax] at h1 h2
    omega
  | a :: b :: r, mn, mx => by
    intro h1 h2
    obtain ⟨m, hm⟩ : ∃ m, listMin (b :: r) = some m := ⟨_, rfl⟩
    obtain ⟨M, hM⟩ : ∃ M, listMax (b :: r) = some M := ⟨_, rfl⟩
    have ih := listMin_le_listMax (b :: r) m M hm hM
    have e1 : listMin (a :: b :: r) = some (min a m) := by
      calc listMin (a :: b :: r)
          = some (match listMin (b :: r) with | none => a | some x => min a x) := rfl
        _ = some (min a m) := by rw [hm]
    have e2 : listMax (a :: b :: r) = some (max a M) := by
      calc listMax (a :: b :: r)
          = some (match listMax (b :: r) with | none => a | some x => max a x) := rfl
        _ = some (max a M) := by rw [hM]
    rw [e1] at h1
    rw [e2] at h2
    simp only [Option.some.injEq] at h1 h2
    calc mn = min a m := h1.symm
      _ ≤ m := min_le_right a m
      _ ≤ M := ih
      _ ≤ max a M := le_max_right a M
      _ = mx := h2

theorem calculate_duration_eq_spec (l : List LogEntry) :
    (TimingAnalyzer.calculate_duration l).getD 0 = timingSpecDuration l := by
  cases l with
  | nil => rfl
  | cons e rest =>
    unfold TimingAnalyzer.calculate_duration timingSpecDuration
    simp only [List.map_cons, listMin_eq_foldl, listMax_eq_foldl, List.foldl_map,
      Option.getD_some]

theorem calculate_duration_nonneg (l : List LogEntry) :
    0 ≤ (TimingAnalyzer.calculate_duration l).getD 0 := by
  unfold TimingAnalyzer.calculate_duration
  cases hmn : listMin (l.map fun e => e.timestamp) with
  | none => simp
  | some mn =>
    cases hmx : listMax (l.map fun e => e.timestamp) with
    | none => simp
    | some mx =>
      have hle := listMin_le_listMax _ mn mx hmn hmx
      simp only [Option.getD_some]
      apply div_nonneg _ (by norm_num)
      exact_mod_cast sub_nonneg.mpr hle

theorem deltaSum_eq_zip : ∀ l : List LogEntry,
    deltaSum l = (List.zipWith (fun b a => b.timestamp - a.timestamp) l.tail l).sum
  | [] => rfl
  | [_] => rfl
  | a :: b :: r => by
    have ih := deltaSum_eq_zip (b :: r)
    simp only [deltaSum, List.tail_cons, List.zipWith, List.sum_cons] at ih ⊢
    rw [ih]

theorem avg_eq_spec (l : List LogEntry) :
    TimingAnalyzer.avg_time_between_entries l = timingSpecAvg l := by
  unfold TimingAnalyzer.avg_time_between_entries timingSpecAvg
  rw [deltaSum_eq_zip]

theorem deltaSum_telescope : ∀ (l : List LogEntry) (a b : LogEntry),
    l.head? = some a → l.getLast? = some b → deltaSum l = b.timestamp - a.timestamp
  | [], _, _ => by intro h _; cases h
  | [x], a, b => by
    intro ha hb
    simp only [List.head?_cons, Option.some.injEq] at ha
    simp only [List.getLast?_singleton, Option.some.injEq] at hb
    subst ha; subst hb
    simp [deltaSum]
  | x :: y :: r, a, b => by
    intro ha hb
    simp only [List.head?_cons, Option.some.injEq] at ha
    rw [List.getLast?_cons_cons] at hb
    have ih := deltaSum_telescope (y :: r) y b rfl hb
    subst ha
    simp only [deltaSum] at ih ⊢
    omega

/-- C2: for every session, the timing analyzer succeeds with total duration
max minus min timestamp in fractional seconds (0 for an empty session),
entry count the number of entries, and average gap 0 below 2 entries and
otherwise the sum of consecutive sequence-order deltas over count minus 1;
the 0, 10, 20, 30 second example yields 30.0, 4 and 10.0. -/
theorem claim_C2 :
    (∀ s : LogSession,
      TimingAnalyzer.analyze s = Except.ok
        { total_duration_secs := timingSpecDuration s.entries,
          entry_count := s.entries.length,
          avg_time_between_entries := timingSpecAvg s.entries })
    ∧ TimingAnalyzer.analyze c2Session = Except.ok
        { total_duration_secs := 30, entry_count := 4, avg_time_between_entries := 10 } := by
  have hGen : ∀ s : LogSession,
      TimingAnalyzer.analyze s = Except.ok
        { total_duration_secs := timingSpecDuration s.entries,
          entry_count := s.entries.length,
          avg_time_between_entries := timingSpecAvg s.entries } := by
    intro s
    unfold TimingAnalyzer.analyze
    rw [calculate_duration_eq_spec, avg_eq_spec]
  refine ⟨hGen, ?_⟩
  rw [hGen c2Session]
  simp only [c2Session, sampleSession, sampleEntry, timingSpecDuration, timingSpecAvg,
    List.foldl_cons, List.foldl_nil, List.tail_cons, List.zipWith, List.sum_cons,
    List.sum_nil, List.length_cons, List.length_nil]
  norm_num [min_def, max_def]

/-- C9: for a session with at least 2 entries, the consecutive deltas
telescope, so the average gap is the last timestamp minus the first over
count minus 1; it is negative when the last entry precedes the first, while
the min-max total duration is never negative. -/
theorem claim_C9 (s : LogSession) (a b : LogEntry)
    (h2 : 2 ≤ s.entries.length) (ha : s.entries.head? = some a)
    (hb : s.entries.getLast? = some b) :
    TimingAnalyzer.avg_time_between_entries s.entries =
      ((b.timestamp - a.timestamp : Int) : ℚ) / 1000 / ((s.entries.length - 1 : Nat) : ℚ)
    ∧ (b.timestamp < a.timestamp →
        TimingAnalyzer.avg_time_between_entries s.entries < 0)
    ∧ 0 ≤ (TimingAnalyzer.calculate_duration s.entries).getD 0 := by
  have hds := deltaSum_telescope s.entries a b ha hb
  have hlen : ¬ s.entries.length < 2 := by omega
  have havg : TimingAnalyzer.avg_time_between_entries s.entries =
      ((b.timestamp - a.timestamp : Int) : ℚ) / 1000 / ((s.entries.length - 1 : Nat) : ℚ) := by
    unfold TimingAnalyzer.avg_time_between_entries
    rw [if_neg hlen, hds]
  refine ⟨havg, ?_, calculate_duration_nonneg s.entries⟩
  intro hlt
  rw [havg]
  have hnum : ((b.timestamp - a.timestamp : Int) : ℚ) < 0 := by
    have : b.timestamp - a.timestamp < 0 := by omega
    exact_mod_cast this
  have hden : (0 : ℚ) < ((s.entries.length - 1 : Nat) : ℚ) := by
    have : 0 < s.entries.length - 1 := by omega
    exact_mod_cast this
  exact div_neg_of_neg_of_pos (div_neg_of_neg_of_pos hnum (by norm_num)) hden

theorem enumFrom_filter_map_snd {α : Type} (pred : α → Bool) :
    ∀ (n : Nat) (l : List α),
      ((List.enumFrom n l).filter (fun p => pred p.2)).map Prod.snd = l.filter pred := by
  intro n l
  induction l generalizing n with
  | nil => rfl
  | cons a r ih =>
    rw [show List.enumFrom n (a :: r) = (n, a) :: List.enumFrom (n + 1) r from rfl]
    simp only [List.filter_cons]
    cases hpa : pred a <;> simp [hpa, ih (n + 1)]

theorem windows3_map {α β : Type} (f : α → β) :
    ∀ l : List α,
      windows3 (l.map f) = (windows3 l).map (fun t => (f t.1, f t.2.1, f t.2.2))
  | [] => rfl
  | [_] => rfl
  | [_, _] => rfl
  | a :: b :: c :: r => by
    have ih := windows3_map f (b :: c :: r)
    simp only [List.map_cons] at ih ⊢
    simp only [windows3, ih, List.map_cons]

theorem windows3_eq_nil {α : Type} : ∀ (l : List α), l.length < 3 → windows3 l = []
  | [], _ => rfl
  | [_], _ => rfl
  | [_, _], _ => rfl
  | _ :: _ :: _ :: _, h => by
    simp only [List.length_cons] at h
    omega

/-- C1: the error-burst detector equals the specification scan, emitting
one ErrorBurst with count 3 and the elapsed duration for each window of 3
consecutive error-kind entries with positive elapsed time and rate at least
the threshold, and nothing for any other window; three errors at 0, 100 and
200 milliseconds with the default threshold yield an ErrorBurst with
count 3 and duration 0.2 seconds. -/
theorem claim_C1 :
    (∀ (a : PatternAnalyzer) (entries : List LogEntry),
      PatternAnalyzer.detect_error_bursts a entries =
        errorBurstsSpec a.error_burst_threshold entries)
    ∧ PatternAnalyzer.detect_error_bursts PatternAnalyzer.new c1Entries =
        [LogPattern.ErrorBurst 3 (1 / 5)] := by
  have hGen : ∀ (a : PatternAnalyzer) (entries : List LogEntry),
      PatternAnalyzer.detect_error_bursts a entries =
        errorBurstsSpec a.error_burst_threshold entries := by
    intro a entries
    have hmap : (entries.enum.filter
          (fun p => decide (p.2.entry_type = EntryType.Error))).map Prod.snd =
        entries.filter (fun e => decide (e.entry_type = EntryType.Error)) :=
      enumFrom_filter_map_snd (fun e => decide (e.entry_type = EntryType.Error)) 0 entries
    simp only [PatternAnalyzer.detect_error_bursts, errorBurstsSpec]
    by_cases h1 : entries.length < 2
    · rw [if_pos h1]
      have hlen : (entries.filter
          (fun e => decide (e.entry_type = EntryType.Error))).length < 3 := by
        have := List.length_filter_le
          (fun e => decide (e.entry_type = EntryType.Error)) entries
        omega
      rw [windows3_eq_nil _ hlen]
      rfl
    · rw [if_neg h1]
      by_cases h2 : (entries.enum.filter
          (fun p => decide (p.2.entry_type = EntryType.Error))).length < 2
      · rw [if_pos h2]
        have hlen : (entries.filter
            (fun e => decide (e.entry_type = EntryType.Error))).length < 3 := by
          rw [← hmap, List.length_map]
          omega
        rw [windows3_eq_nil _ hlen]
        rfl
      · rw [if_neg h2]
        rw [← hmap, windows3_map, List.filterMap_map]
        rfl
  refine ⟨hGen, ?_⟩
  rw [hGen PatternAnalyzer.new c1Entries]
  norm_num [errorBurstsSpec, c1Entries, sampleEntry, PatternAnalyzer.new,
    windows3, List.filterMap_cons, List.filter]

/-- C3: parsing readable file contents always succeeds, returning one entry
per line that is neither blank nor rejected, in file order: with N lines of
which K are malformed and B blank, exactly N minus K minus B entries come
back, and malformed lines never fail the file-level call. -/
theorem claim_C3 (pt : TsParser) (lines : List (List Char)) :
    parse_log_file pt lines = Except.ok (goodEntries pt lines)
    ∧ (goodEntries pt lines).length + countMalformed pt lines + countBlank lines
        = lines.length := by
  refine ⟨rfl, ?_⟩
  induction lines with
  | nil => rfl
  | cons l ls ih =>
    by_cases hb : trimList l = []
    · have e1 : goodEntries pt (l :: ls) = goodEntries pt ls := by
        simp [goodEntries, List.filterMap_cons, hb]
      have e2 : countMalformed pt (l :: ls) = countMalformed pt ls := by
        simp [countMalformed, List.countP_cons, hb]
      have e3 : countBlank (l :: ls) = countBlank ls + 1 := by
        simp [countBlank, List.countP_cons, hb]
      rw [e1, e2, e3, List.length_cons]
      omega
    · by_cases hp : (parse_log_entry pt l).toOption = none
      · have e1 : goodEntries pt (l :: ls) = goodEntries pt ls := by
          simp [goodEntries, List.filterMap_cons, hb, hp]
        have e2 : countMalformed pt (l :: ls) = countMalformed pt ls + 1 := by
          simp [countMalformed, List.countP_cons, hb, hp]
        have e3 : countBlank (l :: ls) = countBlank ls := by
          simp [countBlank, List.countP_cons, hb]
        rw [e1, e2, e3, List.length_cons]
        omega
      · obtain ⟨e, he⟩ : ∃ e, (parse_log_entry pt l).toOption = some e := by
          cases hx : (parse_log_entry pt l).toOption with
          | none => exact absurd hx hp
          | some e => exact ⟨e, rfl⟩
        have e1 : goodEntries pt (l :: ls) = e :: goodEntries pt ls := by
          simp [goodEntries, List.filterMap_cons, hb, he]
        have e2 : countMalformed pt (l :: ls) = countMalformed pt ls := by
          simp [countMalformed, List.countP_cons, hb, he]
        have e3 : countBlank (l :: ls) = countBlank ls := by
          simp [countBlank, List.countP_cons, hb]
        rw [e1, e2, e3, List.length_cons]
        simp only [List.length_cons]
        omega

theorem takeWhile_until (ts rest : List Char) (h : ']' ∉ ts) :
    (ts ++ ']' :: rest).takeWhile (fun c => decide (c ≠ ']')) = ts := by
  induction ts with
  | nil =>
    rw [List.nil_append, List.takeWhile_cons, if_neg (by decide)]
  | cons a t ih =>
    have ha : a ≠ ']' := by
      intro e
      exact h (e ▸ List.mem_cons_self a t)
    have ht : ']' ∉ t := fun m => h (List.mem_cons_of_mem a m)
    rw [List.cons_append, List.takeWhile_cons, if_pos (decide_eq_true ha), ih ht]

theorem dropWhile_until (ts rest : List Char) (h : ']' ∉ ts) :
    (ts ++ ']' :: rest).dropWhile (fun c => decide (c ≠ ']')) = ']' :: rest := by
  induction ts with
  | nil =>
    rw [List.nil_append, List.dropWhile_cons, if_neg (by decide)]
  | cons a t ih =>
    have ha : a ≠ ']' := by
      intro e
      exact h (e ▸ List.mem_cons_self a t)
    have ht : ']' ∉ t := fun m => h (List.mem_cons_of_mem a m)
    rw [List.cons_append, List.dropWhile_cons, if_pos (decide_eq_true ha), ih ht]

/-- C5: a well-formed line, open bracket then a parseable timestamp then a
close bracket then a remainder, parses successfully: the text before the
first colon of the trimmed remainder selects the entry kind through the
fixed case-insensitive keyword table, the message is the trimmed text after
that colon, and with no colon the kind is Unknown and the message is the
whole trimmed remainder. -/
theorem claim_C5 (pt : TsParser) (ts rest : List Char) (t : Int)
    (hts : ']' ∉ ts) (hpt : pt ts = some t) :
    (parse_log_entry pt ('[' :: (ts ++ ']' :: rest)) =
      if ':' ∈ trimList rest then
        Except.ok
          { timestamp := t,
            entry_type := parse_entry_type
              (trimList ((trimList rest).takeWhile (fun c => c ≠ ':'))),
            message := String.mk
              (trimList (((trimList rest).dropWhile (fun c => c ≠ ':')).drop 1)),
            agent_name := none, duration_ms := none }
      else
        Except.ok
          { timestamp := t, entry_type := EntryType.Unknown,
            message := String.mk (trimList rest), agent_name := none,
            duration_ms := none })
    ∧ (∀ s, s.map Char.toUpper = "INFO".data → parse_entry_type s = EntryType.Info)
    ∧ (∀ s, s.map Char.toUpper = "WARN".data ∨ s.map Char.toUpper = "WARNING".data →
        parse_entry_type s = EntryType.Warning)
    ∧ (∀ s, s.map Char.toUpper = "ERROR".data → parse_entry_type s = EntryType.Error)
    ∧ (∀ s, s.map Char.toUpper = "AGENT".data → parse_entry_type s = EntryType.AgentInvocation)
    ∧ (∀ s, s.map Char.toUpper = "DECISION".data → parse_entry_type s = EntryType.Decision)
    ∧ (∀ s, s.map Char.toUpper ∉
        ["INFO".data, "WARN".data, "WARNING".data, "ERROR".data, "AGENT".data,
         "DECISION".data] → parse_entry_type s = EntryType.Unknown) := by
  refine ⟨?_, ?_, ?_, ?_, ?_, ?_, ?_⟩
  · have hmem : ']' ∈ ts ++ ']' :: rest :=
      List.mem_append_right ts (List.mem_cons_self ']' rest)
    have htw := takeWhile_until ts rest hts
    have hdw := dropWhile_until ts rest hts
    simp only [parse_log_entry, List.head?_cons, List.tail_cons, if_pos hmem,
      htw, hdw, parse_timestamp, hpt, List.drop_succ_cons, List.drop_zero]
    rw [if_pos trivial]
  · intro s h
    simp only [parse_entry_type, h]
    decide
  · intro s h
    rcases h with h | h <;> (simp only [parse_entry_type, h]; decide)
  · intro s h
    simp only [parse_entry_type, h]
    decide
  · intro s h
    simp only [parse_entry_type, h]
    decide
  · intro s h
    simp only [parse_entry_type, h]
    decide
  · intro s h
    simp only [List.mem_cons, List.mem_singleton, not_or] at h
    obtain ⟨h1, h2, h3, h4, h5, h6⟩ := h
    simp [parse_entry_type, h1, h2, h3, h4, h5, h6]

/-- Witness for C5 at a concrete INFO line. -/
theorem claim_C5_witness :
    parse_log_entry sampleTsParser ('[' :: ("2025".data ++ ']' :: " INFO: hi".data)) =
      Except.ok
        { timestamp := 5, entry_type := EntryType.Info,
          message := String.mk "hi".data, agent_name := none,
          duration_ms := none } := by
  have h := (claim_C5 sampleTsParser "2025".data " INFO: hi".data 5
    (by decide) (by decide)).1
  rw [h]
  decide

/-- C6: a line not starting with an open bracket, or with no close bracket,
fails with a MalformedEntry error; a bracketed timestamp text rejected by
every timestamp format fails with InvalidTimestamp carrying that text; in
each case the result is exactly an error, no entry. -/
theorem claim_C6 (pt : TsParser) (line : List Char) :
    (line.head? ≠ some '[' →
      parse_log_entry pt line =
        Except.error (ParseError.MalformedEntry 0 "Line does not start with bracket"))
    ∧ (line.head? = some '[' → ']' ∉ line →
      parse_log_entry pt line =
        Except.error (ParseError.MalformedEntry 0 "No closing bracket for timestamp"))
    ∧ (∀ ts rest, line = '[' :: (ts ++ ']' :: rest) → ']' ∉ ts → pt ts = none →
      parse_log_entry pt line =
        Except.error (ParseError.InvalidTimestamp (String.mk ts))) := by
  refine ⟨?_, ?_, ?_⟩
  · intro h
    simp only [parse_log_entry]
    rw [if_neg h]
  · intro hh hm
    simp only [parse_log_entry]
    rw [if_pos hh, if_neg (fun hmem => hm (List.mem_of_mem_tail hmem))]
  · intro ts rest hline hts hpt
    subst hline
    have hmem : ']' ∈ ts ++ ']' :: rest :=
      List.mem_append_right ts (List.mem_cons_self ']' rest)
    simp only [parse_log_entry, List.head?_cons, List.tail_cons, if_pos hmem,
      takeWhile_until ts rest hts, parse_timestamp, hpt]
    rw [if_pos trivial]

/-- Witness for C6 at three concrete malformed lines. -/
theorem claim_C6_witness :
    parse_log_entry sampleTsParser "hello".data =
      Except.error (ParseError.MalformedEntry 0 "Line does not start with bracket")
    ∧ parse_log_entry sampleTsParser "[abc".data =
      Except.error (ParseError.MalformedEntry 0 "No closing bracket for timestamp")
    ∧ parse_log_entry sampleTsParser ('[' :: ("bad".data ++ ']' :: " x".data)) =
      Except.error (ParseError.InvalidTimestamp (String.mk "bad".data)) :=
  ⟨(claim_C6 sampleTsParser "hello".data).1 (by decide),
   (claim_C6 sampleTsParser "[abc".data).2.1 (by decide) (by decide),
   (claim_C6 sampleTsParser ('[' :: ("bad".data ++ ']' :: " x".data))).2.2
     "bad".data " x".data rfl (by decide) (by decide)⟩

/-- Witness for C9 at the two-entry reversed session. -/
theorem claim_C9_witness :
    TimingAnalyzer.avg_time_between_entries c9Session.entries =
      (((sampleEntry 0 EntryType.Info none none).timestamp -
        (sampleEntry 2000 EntryType.Info none none).timestamp : Int) : ℚ) / 1000 /
        ((c9Session.entries.length - 1 : Nat) : ℚ)
    ∧ ((sampleEntry 0 EntryType.Info none none).timestamp <
        (sampleEntry 2000 EntryType.Info none none).timestamp →
        TimingAnalyzer.avg_time_between_entries c9Session.entries < 0)
    ∧ 0 ≤ (TimingAnalyzer.calculate_duration c9Session.entries).getD 0 :=
  claim_C9 c9Session (sampleEntry 2000 EntryType.Info none none)
    (sampleEntry 0 EntryType.Info none none) (by decide) (by decide) (by decide)

theorem analyzeOutput_patternsCanon (a : PatternAnalyzer) (s : LogSession) :
    PatternAnalyzer.analyzeOutput a s (patternsCanon a s) :=
  ⟨PatternAnalyzer.detect_agent_activity a s.entries, List.Perm.refl _, rfl⟩

theorem countP_detect_error_bursts (a : PatternAnalyzer) (l : List LogEntry)
    (q : LogPattern → Bool) (hq : ∀ c d, q (LogPattern.ErrorBurst c d) = false) :
    (PatternAnalyzer.detect_error_bursts a l).countP q = 0 := by
  rw [List.countP_eq_zero]
  intro p hp
  simp only [PatternAnalyzer.detect_error_bursts] at hp
  split at hp
  · simp at hp
  · split at hp
    · simp at hp
    · obtain ⟨w, _, he⟩ := List.mem_filterMap.mp hp
      split at he
      · cases he
        simp [hq]
      · cases he

theorem countP_detect_long_gaps (a : PatternAnalyzer) (l : List LogEntry)
    (q : LogPattern → Bool) (hq : ∀ d, q (LogPattern.LongGap d) = false) :
    (PatternAnalyzer.detect_long_gaps a l).countP q = 0 := by
  rw [List.countP_eq_zero]
  intro p hp
  simp only [PatternAnalyzer.detect_long_gaps] at hp
  obtain ⟨w, _, he⟩ := List.mem_filterMap.mp hp
  split at he
  · cases he
    simp [hq]
  · cases he

theorem countP_detect_agent_activity (a : PatternAnalyzer) (l : List LogEntry)
    (q : LogPattern → Bool) (hq : ∀ n c, q (LogPattern.AgentActivity n c) = false) :
    (PatternAnalyzer.detect_agent_activity a l).countP q = 0 := by
  rw [List.countP_eq_zero]
  intro p hp
  simp only [PatternAnalyzer.detect_agent_activity] at hp
  obtain ⟨x, _, he⟩ := List.mem_map.mp hp
  rw [← he]
  simp [hq]

theorem agent_counts_of_no_agents {l : List LogEntry}
    (h : ∀ e ∈ l, e.agent_name = none) :
    ∀ acc, PatternAnalyzer.agent_counts l acc = acc := by
  induction l with
  | nil => intro acc; rfl
  | cons e r ih =>
    intro acc
    have he := h e (List.mem_cons_self e r)
    have hr : ∀ x ∈ r, x.agent_name = none :=
      fun x hx => h x (List.mem_cons_of_mem e hx)
    simp only [PatternAnalyzer.agent_counts, he]
    exact ih hr acc

theorem detect_agent_activity_of_no_agents (a : PatternAnalyzer)
    {l : List LogEntry} (h : ∀ e ∈ l, e.agent_name = none) :
    PatternAnalyzer.detect_agent_activity a l = [] := by
  simp [PatternAnalyzer.detect_agent_activity, agent_counts_of_no_agents h]

theorem detect_no_agent_some {l : List LogEntry} (hne : l ≠ [])
    (h : ∀ e ∈ l, e.agent_name = none) :
    PatternAnalyzer.detect_no_agent_activity l = some LogPattern.NoAgentActivity := by
  have hcond : ¬(l.any (fun e => e.agent_name.isSome) = true) ∧ l ≠ [] := by
    refine ⟨fun hany => ?_, hne⟩
    obtain ⟨e, he, hsome⟩ := List.any_eq_true.mp hany
    rw [h e he] at hsome
    cases hsome
  simp only [PatternAnalyzer.detect_no_agent_activity]
  rw [if_pos hcond]

theorem detect_no_agent_none_of_agent {l : List LogEntry} {e : LogEntry}
    (he : e ∈ l) (ha : e.agent_name.isSome) :
    PatternAnalyzer.detect_no_agent_activity l = none := by
  simp only [PatternAnalyzer.detect_no_agent_activity]
  rw [if_neg]
  rintro ⟨hno, _⟩
  exact hno (List.any_eq_true.mpr ⟨e, he, ha⟩)

/-- C7: for a nonempty session in which no entry carries an agent name,
every possible pattern-analysis output contains exactly one NoAgentActivity
marker and no AgentActivity pattern; for an empty session, or one where
some entry carries an agent name, it contains no NoAgentActivity marker. -/
theorem claim_C7 (a : PatternAnalyzer) (s : LogSession) (out : PatternAnalysis)
    (hout : PatternAnalyzer.analyzeOutput a s out) :
    ((s.entries ≠ [] ∧ ∀ e ∈ s.entries, e.agent_name = none) →
      out.patterns.countP isNoAgentActivity = 1 ∧
      out.patterns.countP isAgentActivity = 0)
    ∧ ((s.entries = [] ∨ ∃ e ∈ s.entries, e.agent_name.isSome) →
      out.patterns.countP isNoAgentActivity = 0) := by
  obtain ⟨acts, hperm, hpat⟩ := hout
  constructor
  · rintro ⟨hne, hnone⟩
    have hacts : ∀ q : LogPattern → Bool, acts.countP q =
        (PatternAnalyzer.detect_agent_activity a s.entries).countP q :=
      fun q => hperm.countP_eq q
    have hmarker := detect_no_agent_some hne hnone
    constructor
    · rw [hpat]
      simp only [List.countP_append]
      rw [countP_detect_error_bursts a s.entries isNoAgentActivity (fun _ _ => rfl),
        countP_detect_long_gaps a s.entries isNoAgentActivity (fun _ => rfl),
        hacts isNoAgentActivity, detect_agent_activity_of_no_agents a hnone,
        hmarker]
      rfl
    · rw [hpat]
      simp only [List.countP_append]
      rw [countP_detect_error_bursts a s.entries isAgentActivity (fun _ _ => rfl),
        countP_detect_long_gaps a s.entries isAgentActivity (fun _ => rfl),
        hacts isAgentActivity, detect_agent_activity_of_no_agents a hnone,
        hmarker]
      rfl
  · intro hcase
    have hmarker : PatternAnalyzer.detect_no_agent_activity s.entries = none := by
      rcases hcase with hempty | ⟨e, he, ha⟩
      · rw [hempty]
        rfl
      · exact detect_no_agent_none_of_agent he ha
    rw [hpat]
    simp only [List.countP_append]
    rw [countP_detect_error_bursts a s.entries isNoAgentActivity (fun _ _ => rfl),
      countP_detect_long_gaps a s.entries isNoAgentActivity (fun _ => rfl),
      hperm.countP_eq isNoAgentActivity,
      countP_detect_agent_activity a s.entries isNoAgentActivity (fun _ _ => rfl),
      hmarker]
    rfl

/-- Witness for C7 at the two one-entry sessions. -/
theorem claim_C7_witness :
    ((patternsCanon PatternAnalyzer.new c7aSession).patterns.countP isNoAgentActivity = 1 ∧
     (patternsCanon PatternAnalyzer.new c7aSession).patterns.countP isAgentActivity = 0)
    ∧ (patternsCanon PatternAnalyzer.new c7bSession).patterns.countP isNoAgentActivity = 0 :=
  ⟨(claim_C7 PatternAnalyzer.new c7aSession (patternsCanon PatternAnalyzer.new c7aSession)
      (analyzeOutput_patternsCanon PatternAnalyzer.new c7aSession)).1
      ⟨by decide, by decide⟩,
   (claim_C7 PatternAnalyzer.new c7bSession (patternsCanon PatternAnalyzer.new c7bSession)
      (analyzeOutput_patternsCanon PatternAnalyzer.new c7bSession)).2
      (Or.inr ⟨sampleEntry 0 EntryType.Info (some "x") none, by decide, by decide⟩)⟩

theorem process_entries_of_no_agents :
    ∀ (l : List LogEntry), (∀ e ∈ l, e.agent_name = none) →
    ∀ m, AgentAnalyzer.process_entries m l = m
  | [], _, _ => rfl
  | e :: r, h, m => by
    have he := h e (List.mem_cons_self e r)
    have hr : ∀ x ∈ r, x.agent_name = none :=
      fun x hx => h x (List.mem_cons_of_mem e hx)
    simp only [AgentAnalyzer.process_entries, he]
    exact process_entries_of_no_agents r hr m

/-- C10: every entry the line parser produces has no agent name and no
duration; hence a session whose entries come from the file parser makes the
agent analyzer return an empty collection and keeps every possible pattern
analysis free of AgentActivity patterns. -/
theorem claim_C10 :
    (∀ (pt : TsParser) (line : List Char) (e : LogEntry),
      parse_log_entry pt line = Except.ok e →
      e.agent_name = none ∧ e.duration_ms = none)
    ∧ (∀ (pt : TsParser) (lines : List (List Char)) (s : LogSession),
      parse_log_file pt lines = Except.ok s.entries →
      (∀ out : List AgentStats, AgentAnalyzer.analyzeOutput s out → out = [])
      ∧ ∀ (a : PatternAnalyzer) (out : PatternAnalysis),
          PatternAnalyzer.analyzeOutput a s out →
          out.patterns.countP isAgentActivity = 0) := by
  have h1 : ∀ (pt : TsParser) (line : List Char) (e : LogEntry),
      parse_log_entry pt line = Except.ok e →
      e.agent_name = none ∧ e.duration_ms = none := by
    intro pt line e h
    simp only [parse_log_entry] at h
    split at h
    · split at h
      · split at h
        · exact Except.noConfusion h
        · split at h
          · injection h with h2
            subst h2
            exact ⟨rfl, rfl⟩
          · injection h with h2
            subst h2
            exact ⟨rfl, rfl⟩
      · exact Except.noConfusion h
    · exact Except.noConfusion h
  refine ⟨h1, ?_⟩
  intro pt lines s hfile
  have hentries : s.entries = goodEntries pt lines := by
    have hgood : parse_log_file pt lines = Except.ok (goodEntries pt lines) := rfl
    rw [hgood] at hfile
    injection hfile with h2
    exact h2.symm
  have hnone : ∀ e ∈ s.entries, e.agent_name = none := by
    intro e he
    rw [hentries] at he
    obtain ⟨line, _, hsome⟩ := List.mem_filterMap.mp he
    split at hsome
    · cases hsome
    · have hok : parse_log_entry pt line = Except.ok e := by
        cases hx : parse_log_entry pt line with
        | ok v =>
          rw [hx] at hsome
          simp only [Except.toOption, Option.some.injEq] at hsome
          rw [hsome]
        | error er =>
          rw [hx] at hsome
          cases hsome
      exact (h1 pt line e hok).1
  constructor
  · intro out hout
    have hcanon : AgentAnalyzer.process_entries [] s.entries = [] :=
      process_entries_of_no_agents s.entries hnone []
    have : out.Perm [] := by
      have := hout
      rw [AgentAnalyzer.analyzeOutput, hcanon] at this
      exact this
    exact List.perm_nil.mp this
  · rintro a out ⟨acts, hperm, hpat⟩
    rw [hpat]
    simp only [List.countP_append]
    rw [countP_detect_error_bursts a s.entries isAgentActivity (fun _ _ => rfl),
      countP_detect_long_gaps a s.entries isAgentActivity (fun _ => rfl),
      hperm.countP_eq isAgentActivity, detect_agent_activity_of_no_agents a hnone]
    cases hm : PatternAnalyzer.detect_no_agent_activity s.entries with
    | none => rfl
    | some p =>
      have : p = LogPattern.NoAgentActivity := by
        simp only [PatternAnalyzer.detect_no_agent_activity] at hm
        split at hm
        · injection hm with h2
          exact h2.symm
        · cases hm
      rw [this]
      rfl

/-- Witness for C10 at a parsed AGENT line and a one-line parsed session. -/
theorem claim_C10_witness :
    (({ timestamp := 5, entry_type := EntryType.AgentInvocation, message := "run",
        agent_name := none, duration_ms := none } : LogEntry).agent_name = none
      ∧ ({ timestamp := 5, entry_type := EntryType.AgentInvocation, message := "run",
           agent_name := none, duration_ms := none } : LogEntry).duration_ms = none)
    ∧ ([] : List AgentStats) = []
    ∧ (patternsCanon PatternAnalyzer.new c10Session).patterns.countP isAgentActivity = 0 :=
  ⟨claim_C10.1 sampleTsParser "[2025] AGENT: run".data
      { timestamp := 5, entry_type := EntryType.AgentInvocation, message := "run",
        agent_name := none, duration_ms := none } (by decide),
   (claim_C10.2 sampleTsParser c10Lines c10Session rfl).1 [] (List.Perm.refl []),
   (claim_C10.2 sampleTsParser c10Lines c10Session rfl).2 PatternAnalyzer.new
     (patternsCanon PatternAnalyzer.new c10Session)
     (analyzeOutput_patternsCanon PatternAnalyzer.new c10Session)⟩

theorem mapUpdate_mem (P : AgentStats → Prop) {f : AgentStats → AgentStats}
    {name : String} (hf : ∀ st, P (f st)) :
    ∀ (m : List (String × AgentStats)), (∀ p ∈ m, P p.2) →
    ∀ p ∈ mapUpdate f name m, P p.2
  | [], _, p, hp => by
    simp only [mapUpdate, List.mem_singleton] at hp
    rw [hp]
    exact hf _
  | (k, v) :: rest, hm, p, hp => by
    simp only [mapUpdate] at hp
    split at hp
    · rcases List.mem_cons.mp hp with h | h
      · rw [h]
        exact hf v
      · exact hm p (List.mem_cons_of_mem _ h)
    · rcases List.mem_cons.mp hp with h | h
      · rw [h]
        exact hm (k, v) (List.mem_cons_self _ _)
      · exact mapUpdate_mem P hf rest
          (fun x hx => hm x (List.mem_cons_of_mem _ hx)) p h

theorem process_entries_inv (P : AgentStats → Prop)
    (hP : ∀ (st : AgentStats) (d : Nat), P (st.add_duration d)) :
    ∀ (l : List LogEntry), (∀ e ∈ l, e.agent_name.isSome → e.duration_ms.isSome) →
    ∀ m, (∀ p ∈ m, P p.2) → ∀ p ∈ AgentAnalyzer.process_entries m l, P p.2
  | [], _, m, hm, p, hp => hm p hp
  | e :: r, hl, m, hm, p, hp => by
    have hr : ∀ x ∈ r, x.agent_name.isSome → x.duration_ms.isSome :=
      fun x hx => hl x (List.mem_cons_of_mem e hx)
    cases he : e.agent_name with
    | none =>
      rw [show AgentAnalyzer.process_entries m (e :: r) =
          AgentAnalyzer.process_entries m r from by
        simp [AgentAnalyzer.process_entries, he]] at hp
      exact process_entries_inv P hP r hr m hm p hp
    | some a =>
      have hd : e.duration_ms.isSome := hl e (List.mem_cons_self e r) (by simp [he])
      obtain ⟨d, hdval⟩ := Option.isSome_iff_exists.mp hd
      rw [show AgentAnalyzer.process_entries m (e :: r) =
          AgentAnalyzer.process_entries (mapUpdate (AgentAnalyzer.entryUpdate e) a m) r from by
        simp [AgentAnalyzer.process_entries, he]] at hp
      refine process_entries_inv P hP r hr _ ?_ p hp
      refine mapUpdate_mem P ?_ m hm
      intro st
      rw [show AgentAnalyzer.entryUpdate e st = AgentStats.add_duration st d from by
        simp [AgentAnalyzer.entryUpdate, hdval]]
      exact hP st d

/-- C4 (amended): a duration-carrying invocation increments the count, adds
the duration to the total and recomputes the average as total over count; a
duration-less invocation increments only the count, leaving total and
average unchanged; consequently every agent all of whose invocations carry
durations ends the aggregation with a positive count and with
avg_duration_ms equal to total_duration_ms over invocation_count. -/
theorem claim_C4 :
    (∀ (st : AgentStats) (d : Nat),
      (st.add_duration d).invocation_count = st.invocation_count + 1 ∧
      (st.add_duration d).total_duration_ms = st.total_duration_ms + d ∧
      (st.add_duration d).avg_duration_ms =
        ((st.total_duration_ms + d : Nat) : ℚ) / ((st.invocation_count + 1 : Nat) : ℚ))
    ∧ (∀ (e : LogEntry) (st : AgentStats), e.duration_ms = none →
      (AgentAnalyzer.entryUpdate e st).invocation_count = st.invocation_count + 1 ∧
      (AgentAnalyzer.entryUpdate e st).total_duration_ms = st.total_duration_ms ∧
      (AgentAnalyzer.entryUpdate e st).avg_duration_ms = st.avg_duration_ms)
    ∧ (∀ (s : LogSession) (stats : List AgentStats),
      (∀ e ∈ s.entries, e.agent_name.isSome → e.duration_ms.isSome) →
      AgentAnalyzer.analyze s = Except.ok stats →
      ∀ st ∈ stats, 0 < st.invocation_count ∧
        st.avg_duration_ms = (st.total_duration_ms : ℚ) / (st.invocation_count : ℚ)) := by
  refine ⟨?_, ?_, ?_⟩
  · intro st d
    exact ⟨rfl, rfl, rfl⟩
  · intro e st he
    rw [show AgentAnalyzer.entryUpdate e st =
        { st with invocation_count := st.invocation_count + 1 } from by
      simp [AgentAnalyzer.entryUpdate, he]]
    exact ⟨rfl, rfl, rfl⟩
  · intro s stats hdur hok st hst
    have hstats : stats =
        AgentAnalyzer.get_all_stats (AgentAnalyzer.process_entries [] s.entries) := by
      have : AgentAnalyzer.analyze s = Except.ok
          (AgentAnalyzer.get_all_stats (AgentAnalyzer.process_entries [] s.entries)) := rfl
      rw [this] at hok
      injection hok with h2
      exact h2.symm
    rw [hstats] at hst
    obtain ⟨p, hp, hpe⟩ := List.mem_map.mp hst
    rw [← hpe]
    refine process_entries_inv
      (fun x => 0 < x.invocation_count ∧
        x.avg_duration_ms = (x.total_duration_ms : ℚ) / (x.invocation_count : ℚ))
      ?_ s.entries hdur [] (by intro q hq; cases hq) p hp
    intro x d
    exact ⟨Nat.succ_pos _, rfl⟩

/-- Counterexample to C4 as stated: after a duration-carrying invocation
followed by a duration-less one, the agent analyzer reports count 2, total
100 and average 100, but total over count is 50, so the claimed equation
fails at an agent with positive count. -/
theorem claim_C4_counterexample :
    AgentAnalyzer.analyze c4Session = Except.ok [c4Stats]
    ∧ 0 < c4Stats.invocation_count
    ∧ c4Stats.avg_duration_ms ≠
        (c4Stats.total_duration_ms : ℚ) / (c4Stats.invocation_count : ℚ) := by
  refine ⟨?_, by decide, ?_⟩
  · simp only [AgentAnalyzer.analyze, c4Session, sampleSession, c4Entries, sampleEntry,
      AgentAnalyzer.process_entries, mapUpdate, AgentAnalyzer.entryUpdate,
      AgentStats.add_duration, AgentStats.new, AgentAnalyzer.get_all_stats, c4Stats]
    norm_num
  · simp only [c4Stats]
    norm_num

/-- Witness for C4 at concrete stats, a duration-less entry and the
one-invocation session. -/
theorem claim_C4_witness :
    (((AgentStats.new "y").add_duration 5).invocation_count =
        (AgentStats.new "y").invocation_count + 1 ∧
      ((AgentStats.new "y").add_duration 5).total_duration_ms =
        (AgentStats.new "y").total_duration_ms + 5 ∧
      ((AgentStats.new "y").add_duration 5).avg_duration_ms =
        (((AgentStats.new "y").total_duration_ms + 5 : Nat) : ℚ) /
          (((AgentStats.new "y").invocation_count + 1 : Nat) : ℚ))
    ∧ ((AgentAnalyzer.entryUpdate (sampleEntry 0 EntryType.Info none none)
          (AgentStats.new "y")).invocation_count =
        (AgentStats.new "y").invocation_count + 1 ∧
      (AgentAnalyzer.entryUpdate (sampleEntry 0 EntryType.Info none none)
          (AgentStats.new "y")).total_duration_ms =
        (AgentStats.new "y").total_duration_ms ∧
      (AgentAnalyzer.entryUpdate (sampleEntry 0 EntryType.Info none none)
          (AgentStats.new "y")).avg_duration_ms =
        (AgentStats.new "y").avg_duration_ms)
    ∧ (0 < c4wStats.invocation_count ∧
      c4wStats.avg_duration_ms =
        (c4wStats.total_duration_ms : ℚ) / (c4wStats.invocation_count : ℚ)) :=
  ⟨claim_C4.1 (AgentStats.new "y") 5,
   claim_C4.2.1 (sampleEntry 0 EntryType.Info none none) (AgentStats.new "y") rfl,
   claim_C4.2.2 c4wSession [c4wStats] (by decide) rfl c4wStats
     (List.mem_singleton.mpr rfl)⟩

/-- Counterexample to C8 as stated: two runs of the agent analyzer over the
same session may return the same accumulators in different orders, since
each run iterates a fresh HashMap whose iteration order is unspecified, so
the two results are not bit-identical. -/
theorem claim_C8_counterexample :
    AgentAnalyzer.analyzeOutput c8Session [c8StatsA, c8StatsB]
    ∧ AgentAnalyzer.analyzeOutput c8Session [c8StatsB, c8StatsA]
    ∧ [c8StatsA, c8StatsB] ≠ [c8StatsB, c8StatsA] :=
  ⟨List.Perm.refl _, List.Perm.swap c8StatsA c8StatsB [], by decide⟩

/-- C8 (amended): re-running the timing analyzer yields bit-identical
results; re-running the agent analyzer, or the pattern analyzer, yields the
same values with only the order of the agent-keyed part unspecified: any
two outputs for the same session are permutations of each other. -/
theorem claim_C8 (s : LogSession) :
    (∀ t₁ t₂ : Except ParseError TimingStats,
      TimingAnalyzer.analyze s = t₁ → TimingAnalyzer.analyze s = t₂ → t₁ = t₂)
    ∧ (∀ o₁ o₂ : List AgentStats,
      AgentAnalyzer.analyzeOutput s o₁ → AgentAnalyzer.analyzeOutput s o₂ →
      o₁.Perm o₂)
    ∧ (∀ (a : PatternAnalyzer) (p₁ p₂ : PatternAnalysis),
      PatternAnalyzer.analyzeOutput a s p₁ → PatternAnalyzer.analyzeOutput a s p₂ →
      p₁.patterns.Perm p₂.patterns) := by
  refine ⟨?_, ?_, ?_⟩
  · intro t₁ t₂ h1 h2
    rw [← h1, h2]
  · intro o₁ o₂ h1 h2
    exact h1.trans h2.symm
  · rintro a p₁ p₂ ⟨a1, hp1, he1⟩ ⟨a2, hp2, he2⟩
    rw [he1, he2]
    exact List.Perm.append_right _ (List.Perm.append_left _ (hp1.trans hp2.symm))

/-- Witness for C8 at the two-agent session: two valid agent-analyzer
outputs are permutations of each other, and two pattern-analysis outputs
have permuted pattern lists. -/
theorem claim_C8_witness :
    ([c8StatsA, c8StatsB] : List AgentStats).Perm [c8StatsB, c8StatsA]
    ∧ (patternsCanon PatternAnalyzer.new c8Session).patterns.Perm
        (patternsCanon PatternAnalyzer.new c8Session).patterns :=
  ⟨(claim_C8 c8Session).2.1 [c8StatsA, c8StatsB] [c8StatsB, c8StatsA]
      (List.Perm.refl _) (List.Perm.swap c8StatsA c8StatsB []),
   (claim_C8 c8Session).2.2 PatternAnalyzer.new
      (patternsCanon PatternAnalyzer.new c8Session)
      (patternsCanon PatternAnalyzer.new c8Session)
      (analyzeOutput_patternsCanon PatternAnalyzer.new c8Session)
      (analyzeOutput_patternsCanon PatternAnalyzer.new c8Session)⟩
